import Mathlib

/-!
A verification development for the `besinveri-api` repository (a Rust HTTP
API serving a food catalog).  Rust strings are modelled as `List Char`
(`str::find`/`str::len` return byte offsets in Rust; over a char-wise model
both `p` and `L` of the relevance formula are measured in the same units, so
the formulas keep their exact shape).  Machine integers (`u64`, `usize`,
`i64`) are modelled as `Nat`; `f64` nutrition values are never computed
with, only stored and compared, so they are modelled exactly as `Rat`.
-/

namespace BesinVeri

/-- Models Rust `char::to_lowercase` / SQLite `LOWER` on a single character.
Lean's `Char.toLower` maps exactly `A`-`Z` to `a`-`z`, which coincides with
SQLite `LOWER`; Rust's Unicode lowercasing extends it on non-ASCII letters,
a difference none of the verified properties depend on. -/
def lowerChar (c : Char) : Char := c.toLower

/-- Models Rust `str::to_lowercase` (applied character-wise). -/
def lowerStr (s : List Char) : List Char := s.map lowerChar

/-- Models Rust `str::trim`: whitespace stripped from both ends. -/
def trimChars (s : List Char) : List Char :=
  ((s.dropWhile Char.isWhitespace).reverse.dropWhile Char.isWhitespace).reverse

/-- Models Rust `str::find(needle)`: index of the first occurrence of
`needle` as a contiguous subsequence of `hay`, `none` if it does not occur. -/
def findSub (hay needle : List Char) : Option Nat :=
  if needle.isPrefixOf hay then some 0
  else
    match hay with
    | [] => none
    | _ :: t => (findSub t needle).map (· + 1)

/-- Models Rust `str::contains(needle)` (also SQLite `LIKE '%needle%'` for
wildcard-free needles). -/
def containsSub (hay needle : List Char) : Bool := decide (needle <:+: hay)

/-- Number of bytes of the UTF-8 encoding of the string; models Rust
`str::len` where the byte count matters (`SearchParams::size`). -/
def utf8Len (s : List Char) : Nat := (s.map Char.utf8Size).sum

/-- Models Rust `str::split(',')`: always yields at least one (possibly
empty) piece. -/
def splitComma : List Char → List (List Char)
  | [] => [[]]
  | c :: rest =>
    let r := splitComma rest
    if c = ',' then [] :: r
    else (c :: r.headD []) :: r.tailD []

/-- Modelled from the spec: `to_lower_en_kebab_case` lives in `core/str.rs`,
which is not among the provided sources.  Spec §3: the slug is derived from
the description "by lowercasing, ASCII-folding, and replacing
non-alphanumeric runs with a single `-`".  ASCII folding of the Turkish
letters that occur in the seed data. -/
def asciiFold (c : Char) : Char :=
  if c = 'ç' then 'c'
  else if c = 'ğ' then 'g'
  else if c = 'ı' then 'i'
  else if c = 'ö' then 'o'
  else if c = 'ş' then 's'
  else if c = 'ü' then 'u'
  else c

/-- Modelled from the spec: slug derivation (`core/str.rs` is not among the
provided sources).  Lowercase + ASCII-fold each character, map every
non-alphanumeric character to `-`, then collapse runs of `-`. -/
def toLowerEnKebabCase (s : List Char) : List Char :=
  let mapped := s.map (fun c =>
    let c := asciiFold (lowerChar c)
    if c.isAlphanum then c else '-')
  (mapped.foldr (fun c acc =>
    if c = '-' ∧ acc.headD ' ' = '-' then acc else c :: acc) [])

/-- Modelled from the spec: `APIError` (`api/error.rs` is not among the
provided sources) carries an HTTP status code and a message; spec §6: error
body is `{ "status": <code>, "message": <string> }`. -/
structure APIError where
  status : Nat
  message : List Char
deriving DecidableEq

/-- Models `APIError::new(StatusCode, msg)`. -/
def APIError.new (status : Nat) (message : List Char) : APIError :=
  ⟨status, message⟩

instance {ε α : Type} [DecidableEq ε] [DecidableEq α] : DecidableEq (Except ε α) := by
  intro a b
  cases a <;> cases b
  case error.error e f =>
    exact if h : e = f then .isTrue (by rw [h]) else .isFalse (by simpa using h)
  case ok.ok x y =>
    exact if h : x = y then .isTrue (by rw [h]) else .isFalse (by simpa using h)
  case error.ok e x => exact .isFalse (by simp)
  case ok.error x e => exact .isFalse (by simp)

/-- The `Food` struct of `core/food.rs` (not among the provided sources; its
field list is fully pinned by the constructors in the in-source tests of
`api/foods.rs` and the bindings of `insert_food`).  `servings` is a
`BTreeMap<String, f64>`, modelled as an association list. -/
structure Food where
  id : Option Nat := none
  slug : Option (List Char) := none
  description : List Char := []
  verified : Option Bool := none
  image_url : List Char := []
  source : List Char := []
  tags : List (List Char) := []
  allergens : List (List Char) := []
  servings : List (List Char × Rat) := []
  glycemic_index : Rat := 0
  energy : Rat := 0
  carbohydrate : Rat := 0
  protein : Rat := 0
  fat : Rat := 0
  saturated_fat : Rat := 0
  trans_fat : Rat := 0
  sugar : Rat := 0
  fiber : Rat := 0
  water : Rat := 0
  cholesterol : Rat := 0
  sodium : Rat := 0
  potassium : Rat := 0
  iron : Rat := 0
  magnesium : Rat := 0
  calcium : Rat := 0
  zinc : Rat := 0
  vitamin_a : Rat := 0
  vitamin_b6 : Rat := 0
  vitamin_b12 : Rat := 0
  vitamin_c : Rat := 0
  vitamin_d : Rat := 0
  vitamin_e : Rat := 0
  vitamin_k : Rat := 0
deriving DecidableEq

/-! ## Ranker (`sort_foods_by_query`, `api/foods.rs`) -/

/-- The relevance score computed by the `filter_map` closure of
`sort_foods_by_query` (`api/foods.rs`).  The query has already been
lowercased once, outside the loop, as in the source.  Every branch of the
closure returns `Some`, so the score computation is factored out here; `Nat`
subtraction is saturating, matching `len.saturating_sub(pos)`. -/
def sortFoodsScore (queryLower : List Char) (food : Food) : Nat :=
  let descLower := lowerStr food.description
  if queryLower.isPrefixOf descLower then 20
  else
    match findSub descLower queryLower with
    | some pos => 10 * (descLower.length - pos) / max descLower.length 1
    | none => 0

/-- The `(original_index, food, score)` list built by the
`drain(..).enumerate().filter_map(...)` pipeline of `sort_foods_by_query`.
Each branch of the source closure ends in `Some(...)`, so the `filterMap`
never drops an element. -/
def scoredFoods (queryLower : List Char) (foods : List Food) : List (Nat × Food × Nat) :=
  foods.enum.filterMap (fun p => some (p.1, p.2, sortFoodsScore queryLower p.2))

/-- The call `scored.sort_unstable_by(|a, b| b.2.cmp(&a.2))` sorts so that adjacent
scores are non-increasing: the comparator returns `Greater` exactly when the
second score exceeds the first. -/
def sortedByScoreDesc (l : List (Nat × Food × Nat)) : Prop :=
  l.Chain' (fun a b => b.2.2 ≤ a.2.2)

/-- Models `sort_foods_by_query(foods, query)` as a relation between the input list
and the final contents of `foods`.  Rust's `slice::sort_unstable_by` promises
only that the output is a permutation of the input ordered by the comparator
(it "may reorder equal elements"), so the sort step is modelled by exactly
that contract. -/
def sortFoodsByQuery (query : List Char) (foods result : List Food) : Prop :=
  ∃ scoredSorted : List (Nat × Food × Nat),
    (scoredFoods (lowerStr query) foods).Perm scoredSorted ∧
    sortedByScoreDesc scoredSorted ∧
    result = scoredSorted.map (fun t => t.2.1)

/-! ## Sanitizer (`sanitize_input`, `api/foods.rs`) -/

/-- Models `sanitize_input` from `api/foods.rs`: the exact chain of `contains`
checks of the source, including the duplicated `"\\"` check, followed by the
`trim().is_empty()` check. -/
def sanitizeInput (s : List Char) : Except APIError Unit :=
  if containsSub s ['.', '.']
      || containsSub s ['/']
      || containsSub s ['\\']
      || containsSub s ['\x00']
      || containsSub s [';']
      || containsSub s ['*']
      || containsSub s ['-', '-']
      || containsSub s ['/', '*']
      || containsSub s ['*', '/']
      || containsSub s ['\'']
      || containsSub s ['\"']
      || containsSub s ['\\']
      || (trimChars s).isEmpty then
    .error (APIError.new 400 "Sorgu geçersiz karakterler içeriyor".toList)
  else
    .ok ()

/-! ## Search parameters (`SearchParams`, `api/foods.rs`) -/

structure SearchParams where
  q : List Char
  mode : Option (List Char)
  limit : Option Nat
deriving DecidableEq

/-- The value of `size_of::<SearchParams>()` on the 64-bit target the service is built
for: `String` (24 bytes) + `Option<String>` (24 bytes) + `Option<u64>`
(16 bytes). -/
def searchParamsStaticSize : Nat := 64

/-- Models `SearchParams::size` from `api/foods.rs`: static size plus the byte
lengths of `q` and (when present) `mode`. -/
def SearchParams.size (p : SearchParams) : Nat :=
  let querySize := utf8Len p.q
  let modeSize := (p.mode.map utf8Len).getD 0
  searchParamsStaticSize + querySize + modeSize

/-! ## Client IP (`parse_client_ip`, `api/mod.rs`) -/

/-- Models `parse_client_ip` from `api/mod.rs`.  The `x-forwarded-for` lookup
composed with `to_str().ok()` is modelled as an `Option (List Char)` input
(`none` covers both a missing header and a non-UTF-8 value).  The source
takes `split(",").next()` — the first piece, which `str::split` always
yields — trims it, and otherwise falls back to `format!("proxy: {}", ip)`. -/
def parseClientIp (proxyIp : List Char) (xff : Option (List Char)) : List Char :=
  match xff with
  | some value => trimChars ((splitComma value).headD [])
  | none => "proxy: ".toList ++ proxyIp

/-! ## Store (`api/database.rs`)

The embedded SQLite store is modelled as lists of rows, one list per table
of the `migrations/foods` schema.  The migration scripts themselves are not
among the provided sources; the constraints they declare are modelled from
the spec (§3): `foods.slug` and `foods.description` are UNIQUE, the side
tables (`food_sources`, `food_images`, `tags`, `allergens`,
`serving_descriptions`) are deduplicated by their description/URL column,
and a link-table row is unique per (food, other) pair.  Row ids are the
SQLite rowids, `1, 2, …` in insertion order; rows are never deleted by the
core. -/

/-- A row of the `foods` table.  `verified` is an `INTEGER` column that is
`NULL`-able through out-of-band edits, hence `Option Bool`. -/
structure FoodRow where
  id : Nat
  slug : List Char
  description : List Char
  verified : Option Bool
  imageId : Nat
  sourceId : Nat
  glycemic_index : Rat := 0
  energy : Rat := 0
  carbohydrate : Rat := 0
  protein : Rat := 0
  fat : Rat := 0
  saturated_fat : Rat := 0
  trans_fat : Rat := 0
  sugar : Rat := 0
  fiber : Rat := 0
  water : Rat := 0
  cholesterol : Rat := 0
  sodium : Rat := 0
  potassium : Rat := 0
  iron : Rat := 0
  magnesium : Rat := 0
  calcium : Rat := 0
  zinc : Rat := 0
  vitamin_a : Rat := 0
  vitamin_b6 : Rat := 0
  vitamin_b12 : Rat := 0
  vitamin_c : Rat := 0
  vitamin_d : Rat := 0
  vitamin_e : Rat := 0
  vitamin_k : Rat := 0
deriving DecidableEq

/-- The store state: one list per table. -/
structure DB where
  foodSources : List (Nat × List Char) := []
  foodImages : List (Nat × List Char) := []
  foods : List FoodRow := []
  tags : List (Nat × List Char) := []
  allergens : List (Nat × List Char) := []
  servingDescriptions : List (Nat × List Char) := []
  foodTags : List (Nat × Nat) := []
  foodAllergens : List (Nat × Nat) := []
  foodServings : List (Nat × Nat × Rat) := []
deriving DecidableEq

/-- Errors surfacing from store operations (`anyhow::Error` in the source):
the explicit duplicate-description error of `insert_food`, and `sqlx`'s
`RowNotFound` from a `fetch_one` that matches no row (as produced by
`INSERT OR IGNORE … RETURNING ID` when the insert was ignored). -/
inductive DBErr where
  | alreadyExists
  | rowNotFound
deriving DecidableEq

/-- Models `INSERT OR IGNORE INTO <table> (description) VALUES (?)` against a table
whose description column is UNIQUE: appends a fresh row unless the value is
already present. -/
def insertOrIgnoreDesc (table : List (Nat × List Char)) (d : List Char) :
    List (Nat × List Char) :=
  if table.any (fun r => r.2 == d) then table else table ++ [(table.length + 1, d)]

/-- Models `SELECT id FROM <table> WHERE description = ? LIMIT 1` via `fetch_one`
(`none` models `RowNotFound`). -/
def fetchIdByDesc (table : List (Nat × List Char)) (d : List Char) : Option Nat :=
  (table.find? (fun r => r.2 == d)).map (·.1)

/-- Models `INSERT OR IGNORE` into a two-column link table with a UNIQUE pair. -/
def insertOrIgnorePair (table : List (Nat × Nat)) (p : Nat × Nat) : List (Nat × Nat) :=
  if table.any (fun r => r == p) then table else table ++ [p]

/-- Models `INSERT OR IGNORE INTO food_servings (food_id, serving_description_id,
weight)`: the (food, serving description) pair is UNIQUE, the weight is
payload. -/
def insertOrIgnoreServing (table : List (Nat × Nat × Rat)) (foodId sdId : Nat)
    (w : Rat) : List (Nat × Nat × Rat) :=
  if table.any (fun r => r.1 == foodId && r.2.1 == sdId) then table
  else table ++ [(foodId, sdId, w)]

/-- Models `food_exists_by_description`: `SELECT id FROM foods WHERE description = ?`
then `is_some()`. -/
def foodExistsByDescription (db : DB) (description : List Char) : Bool :=
  db.foods.any (fun r => r.description == description)

/-- One iteration of the tag loop of `insert_food`: `INSERT OR IGNORE INTO
tags (description) VALUES (LOWER(?))`, `SELECT id FROM tags WHERE
description = LOWER(?) LIMIT 1`, `INSERT OR IGNORE INTO food_tags`. -/
def tagStep (foodId : Nat) (db : DB) (tag : List Char) : Except DBErr DB := do
  let db := { db with tags := insertOrIgnoreDesc db.tags (lowerStr tag) }
  match fetchIdByDesc db.tags (lowerStr tag) with
  | some tagId => pure { db with foodTags := insertOrIgnorePair db.foodTags (foodId, tagId) }
  | none => throw .rowNotFound

/-- One iteration of the allergen loop of `insert_food` (same shape as the
tag loop, against `allergens` / `food_allergens`). -/
def allergenStep (foodId : Nat) (db : DB) (allergen : List Char) : Except DBErr DB := do
  let db := { db with allergens := insertOrIgnoreDesc db.allergens (lowerStr allergen) }
  match fetchIdByDesc db.allergens (lowerStr allergen) with
  | some allergenId =>
      pure { db with foodAllergens := insertOrIgnorePair db.foodAllergens (foodId, allergenId) }
  | none => throw .rowNotFound

/-- One iteration of the serving loop of `insert_food`: serving descriptions
are deduplicated case-preservingly (no `LOWER`), the link row carries the
weight. -/
def servingStep (foodId : Nat) (db : DB) (serving : List Char × Rat) : Except DBErr DB := do
  let db := { db with servingDescriptions := insertOrIgnoreDesc db.servingDescriptions serving.1 }
  match fetchIdByDesc db.servingDescriptions serving.1 with
  | some sdId =>
      pure { db with foodServings := insertOrIgnoreServing db.foodServings foodId sdId serving.2 }
  | none => throw .rowNotFound

/-- The body of `insert_food` between `pool.begin()` and `tx.commit()`: every
statement runs against the transaction state, which is returned on success
together with the fresh food id.  The `foods` insert is
`INSERT OR IGNORE … RETURNING ID` read with `fetch_one`: if the UNIQUE
constraints on `slug` or `description` make the insert a no-op, no row comes
back and `fetch_one` fails. -/
def insertFoodTx (db0 : DB) (food : Food) : Except DBErr (DB × Nat) :=
  let db1 := { db0 with foodSources := insertOrIgnoreDesc db0.foodSources food.source }
  match fetchIdByDesc db1.foodSources food.source with
  | none => .error .rowNotFound
  | some sourceId =>
  let db := { db1 with foodImages := insertOrIgnoreDesc db1.foodImages food.image_url }
  match fetchIdByDesc db.foodImages food.image_url with
  | none => .error .rowNotFound
  | some imageId =>
  if db.foods.any (fun r =>
      r.slug == toLowerEnKebabCase food.description || r.description == food.description) then
    .error .rowNotFound
  else
    let foodId := db.foods.length + 1
    let row : FoodRow :=
      { id := foodId
        slug := toLowerEnKebabCase food.description
        description := food.description
        verified := some (food.verified.getD true)
        imageId := imageId
        sourceId := sourceId
        glycemic_index := food.glycemic_index
        energy := food.energy
        carbohydrate := food.carbohydrate
        protein := food.protein
        fat := food.fat
        saturated_fat := food.saturated_fat
        trans_fat := food.trans_fat
        sugar := food.sugar
        fiber := food.fiber
        water := food.water
        cholesterol := food.cholesterol
        sodium := food.sodium
        potassium := food.potassium
        iron := food.iron
        magnesium := food.magnesium
        calcium := food.calcium
        zinc := food.zinc
        vitamin_a := food.vitamin_a
        vitamin_b6 := food.vitamin_b6
        vitamin_b12 := food.vitamin_b12
        vitamin_c := food.vitamin_c
        vitamin_d := food.vitamin_d
        vitamin_e := food.vitamin_e
        vitamin_k := food.vitamin_k }
    let db := { db with foods := db.foods ++ [row] }
    match food.tags.foldlM (tagStep foodId) db with
    | .error e => .error e
    | .ok db =>
    match food.allergens.foldlM (allergenStep foodId) db with
    | .error e => .error e
    | .ok db =>
    match food.servings.foldlM (servingStep foodId) db with
    | .error e => .error e
    | .ok db => .ok (db, foodId)

/-- Models `insert_food` from `api/database.rs`.  The duplicate-description guard
runs against the pool before the transaction starts.  On success the
transaction is committed (its state becomes the store state) and the food is
returned with its fresh id; on any error inside, the `sqlx` transaction is
dropped, which rolls every statement back, so the store keeps its prior
state. -/
def insertFood (db : DB) (food : Food) : DB × Except DBErr Food :=
  if foodExistsByDescription db food.description then
    (db, .error .alreadyExists)
  else
    match insertFoodTx db food with
    | .ok (tx, foodId) => (tx, .ok { food with id := some foodId })
    | .error e => (db, .error e)

/-- The seeding loop of `connect_database`: each food from the JSON seed
files is passed to `insert_food`; errors are logged at warning level and
otherwise ignored, so the loop always continues with the store state the
call left behind. -/
def seedFoods (db : DB) (foods : List Food) : DB :=
  foods.foldl (fun db food => (insertFood db food).1) db

/-- Models `select_all_foods_slugs`: `SELECT slug FROM foods WHERE verified=1`. -/
def selectAllFoodsSlugs (db : DB) : List (List Char) :=
  (db.foods.filter (fun r => r.verified == some true)).map (·.slug)

/-- Models `select_all_tags`: `SELECT description FROM tags`. -/
def selectAllTags (db : DB) : List (List Char) := db.tags.map (·.2)

/-- Hydration of one `foods` row by `SELECT_FOOD_SQL_QUERY`: the LEFT JOINs
resolve the image URL and source description, the grouped subqueries collect
tag descriptions, allergen descriptions and (serving description, weight)
pairs for the row's food id. -/
def rowToFood (db : DB) (row : FoodRow) : Food :=
  { id := some row.id
    slug := some row.slug
    description := row.description
    verified := row.verified
    image_url := ((db.foodImages.find? (fun r => r.1 == row.imageId)).map (·.2)).getD []
    source := ((db.foodSources.find? (fun r => r.1 == row.sourceId)).map (·.2)).getD []
    tags := (db.foodTags.filter (fun p => p.1 == row.id)).filterMap
      (fun p => (db.tags.find? (fun t => t.1 == p.2)).map (·.2))
    allergens := (db.foodAllergens.filter (fun p => p.1 == row.id)).filterMap
      (fun p => (db.allergens.find? (fun a => a.1 == p.2)).map (·.2))
    servings := (db.foodServings.filter (fun p => p.1 == row.id)).filterMap
      (fun p => (db.servingDescriptions.find? (fun sd => sd.1 == p.2.1)).map
        (fun sd => (sd.2, p.2.2)))
    glycemic_index := row.glycemic_index
    energy := row.energy
    carbohydrate := row.carbohydrate
    protein := row.protein
    fat := row.fat
    saturated_fat := row.saturated_fat
    trans_fat := row.trans_fat
    sugar := row.sugar
    fiber := row.fiber
    water := row.water
    cholesterol := row.cholesterol
    sodium := row.sodium
    potassium := row.potassium
    iron := row.iron
    magnesium := row.magnesium
    calcium := row.calcium
    zinc := row.zinc
    vitamin_a := row.vitamin_a
    vitamin_b6 := row.vitamin_b6
    vitamin_b12 := row.vitamin_b12
    vitamin_c := row.vitamin_c
    vitamin_d := row.vitamin_d
    vitamin_e := row.vitamin_e
    vitamin_k := row.vitamin_k }

/-- Models `select_food_by_slug`: `… WHERE F.slug = ?` via `fetch_one`. -/
def selectFoodBySlug (db : DB) (slug : List Char) : Except DBErr Food :=
  match db.foods.find? (fun r => r.slug == slug) with
  | some row => .ok (rowToFood db row)
  | none => .error .rowNotFound

/-- Models `search_foods_by_description_wild`: `… WHERE F.description LIKE ?` with
pattern `%q%`.  SQLite's default collation makes `LIKE` case-insensitive on
the ASCII range, modelled by comparing char-wise lowered strings; `LIKE`
wildcards inside `q` itself are not modelled (no verified property depends
on them). -/
def searchFoodsByDescriptionWild (db : DB) (q : List Char) : List Food :=
  (db.foods.filter (fun r => containsSub (lowerStr r.description) (lowerStr q))).map
    (rowToFood db)

/-- Models `search_foods_by_tag_wild`: foods for which a tag row linked through
`food_tags` has a description `LIKE %q%`. -/
def searchFoodsByTagWild (db : DB) (q : List Char) : List Food :=
  (db.foods.filter (fun r => db.tags.any (fun t =>
      containsSub (lowerStr t.2) (lowerStr q) &&
      db.foodTags.any (fun p => p.1 == r.id && p.2 == t.1)))).map (rowToFood db)

/-! ## Handlers (`api/foods.rs`) -/

/-- Modelled from the spec: the `Config` fields the handlers consume
(`core/config.rs` is not among the provided sources); spec §6 lists the
recognized options. -/
structure Config where
  base_url : List Char := []
  static_url : List Char := []
  search_max_limit : Nat := 10
deriving DecidableEq

/-- Models `fix_image_url`: if the food's image URL begins with `/`, prepend the
configured static base URL. -/
def fixImageUrl (cfg : Config) (food : Food) : Food :=
  if ['/'].isPrefixOf food.image_url then
    { food with image_url := cfg.static_url ++ food.image_url }
  else food

/-- Models `fix_image_urls`: the same rewrite applied to each food of a list (the
source iterates with `iter_mut().filter(…).for_each(…)`, which leaves
non-matching foods untouched in place). -/
def fixImageUrls (cfg : Config) (foods : List Food) : List Food :=
  foods.map (fixImageUrl cfg)

/-- The `GET /food/{slug}` handler (`food` in `api/foods.rs`): slug byte
bounds, `sanitize_input`, `select_food_by_slug` (failures leak as 404),
image-URL rewrite, then the `verified.is_some_and(|v| v)` gate answering 403
for anything not verified. -/
def foodHandler (cfg : Config) (db : DB) (slug : List Char) : Except APIError Food :=
  if slug.isEmpty ∨ 100 < utf8Len slug then
    .error (APIError.new 400 "Slug en az 1 karakter, en fazla 100 karakterden oluşabilir".toList)
  else match sanitizeInput slug with
  | .error e => .error e
  | .ok _ =>
    match selectFoodBySlug db slug with
    | .error _ => .error (APIError.new 404 "Bu yemekle ilgili veriye ulaşılamadı".toList)
    | .ok food =>
      let food := fixImageUrl cfg food
      if food.verified.any (fun verified => verified) then
        .ok food
      else
        .error (APIError.new 403 "Bu yemek henüz onaylanmadığı için gösterilemiyor".toList)

/-- The `GET /foods/list` handler: every verified slug mapped to its URL
under the configured base URL (a `BTreeMap` on the wire; the slug/URL pairs
are what the claims quantify over). -/
def foodsListHandler (cfg : Config) (db : DB) : List (List Char × List Char) :=
  (selectAllFoodsSlugs db).map
    (fun slug => (slug, cfg.base_url ++ "/food/".toList ++ slug))

def searchSizeError : APIError :=
  APIError.new 400 "Gönderdiğiniz sorgu 96 bayt limitini aşıyor!".toList

def searchLimitError : APIError :=
  APIError.new 400 "Arama limitini geçtiniz!".toList

def searchModeError : APIError := APIError.new 400 "Geçersiz sorgu!".toList

/-- The `GET /foods/search` handler (`foods_search` in `api/foods.rs`) as a
relation between its inputs and the response, in the source's order: the
96-byte aggregate-size gate, mode resolution (`to_lowercase`, default
`description`), the limit gate against `api.search_max_limit`,
`sanitize_input` on `q`, the mode dispatch (with the ranker's unstable sort
as a relation), then `retain(verified.unwrap_or(false))`, `truncate(limit)`
and the image rewrite.  The store queries themselves cannot fail in the
model, so the 404 mapping of store errors does not arise. -/
def foodsSearch (cfg : Config) (db : DB) (params : SearchParams)
    (result : Except APIError (List Food)) : Prop :=
  if 96 < params.size then result = .error searchSizeError
  else
    let mode := match params.mode with
      | some mode => lowerStr mode
      | none => "description".toList
    let limit := params.limit.getD 5
    if cfg.search_max_limit < limit then result = .error searchLimitError
    else match sanitizeInput params.q with
      | .error e => result = .error e
      | .ok _ =>
        if mode = "description".toList ∨ mode = "name".toList then
          ∃ sorted : List Food,
            sortFoodsByQuery params.q (searchFoodsByDescriptionWild db params.q) sorted ∧
            result = .ok (fixImageUrls cfg
              ((sorted.filter (fun food => food.verified.getD false)).take limit))
        else if mode = "tag".toList then
          result = .ok (fixImageUrls cfg
            (((searchFoodsByTagWild db params.q).filter
              (fun food => food.verified.getD false)).take limit))
        else
          result = .error searchModeError

/-! ## Spec-side reference definitions for the relevance score (§4.3)

These two definitions follow the wording of the spec, not the source, and
exist to be compared with `sortFoodsScore`. -/

/-- The spec's "position `p` (0-indexed)" of the first occurrence of `q` in
`d`, phrased independently of `findSub`: the first index `i` such that `q`
starts at `i` in `d`. -/
def specFirstOccurrence (d q : List Char) : Option Nat :=
  (List.range (d.length + 1)).find? (fun i => q.isPrefixOf (d.drop i))

/-- The spec's scoring formula (§4.3): 20 on a prefix match, otherwise
`floor(10 * (L - p) / max(L, 1))` — the floor computed over ℤ — when `q`
occurs at position `p` in the lowercased description of length `L`,
otherwise 0. -/
def specRelevanceScore (q desc : List Char) : Nat :=
  let d := lowerStr desc
  let ql := lowerStr q
  if ql.isPrefixOf d then 20
  else
    match specFirstOccurrence d ql with
    | some p => (10 * ((d.length : Int) - (p : Int)) / max (d.length : Int) 1).toNat
    | none => 0

/-! ## Verification-side constructions and concrete fixtures

Predicates used to state the claims, and the concrete stores, foods and
parameters the witness theorems evaluate the model on. -/

/-- Foods used as concrete ranker inputs. -/
def foodKarpuz : Food := { description := ['K', 'a', 'r', 'p', 'u', 'z'] }

def foodElma : Food := { description := ['E', 'l', 'm', 'a'] }

/-- Parameters of serialized size exactly 97 bytes (33-byte query). -/
def searchParams97 : SearchParams :=
  { q := List.replicate 33 'a', mode := none, limit := none }

/-- Parameters of serialized size exactly 96 bytes (32-byte query). -/
def searchParams96 : SearchParams :=
  { q := List.replicate 32 'a', mode := none, limit := none }

def LinkExt (db db' : DB) : Prop :=
  db'.foodSources = db.foodSources ∧ db'.foodImages = db.foodImages ∧
  db'.foods = db.foods ∧
  (∀ x ∈ db.tags, x ∈ db'.tags) ∧ (∀ x ∈ db.allergens, x ∈ db'.allergens) ∧
  (∀ x ∈ db.servingDescriptions, x ∈ db'.servingDescriptions) ∧
  (∀ x ∈ db.foodTags, x ∈ db'.foodTags) ∧
  (∀ x ∈ db.foodAllergens, x ∈ db'.foodAllergens) ∧
  (∀ x ∈ db.foodServings, x ∈ db'.foodServings)

/-- The `foods` row `insert_food` writes, as a function of the resolved
source and image ids (definitionally the literal inside `insertFoodTx`). -/
def insertedRow (db : DB) (food : Food) (sourceId imageId : Nat) : FoodRow :=
  { id := db.foods.length + 1
    slug := toLowerEnKebabCase food.description
    description := food.description
    verified := some (food.verified.getD true)
    imageId := imageId
    sourceId := sourceId
    glycemic_index := food.glycemic_index
    energy := food.energy
    carbohydrate := food.carbohydrate
    protein := food.protein
    fat := food.fat
    saturated_fat := food.saturated_fat
    trans_fat := food.trans_fat
    sugar := food.sugar
    fiber := food.fiber
    water := food.water
    cholesterol := food.cholesterol
    sodium := food.sodium
    potassium := food.potassium
    iron := food.iron
    magnesium := food.magnesium
    calcium := food.calcium
    zinc := food.zinc
    vitamin_a := food.vitamin_a
    vitamin_b6 := food.vitamin_b6
    vitamin_b12 := food.vitamin_b12
    vitamin_c := food.vitamin_c
    vitamin_d := food.vitamin_d
    vitamin_e := food.vitamin_e
    vitamin_k := food.vitamin_k }

/-- The transaction state right before the link loops (definitionally the
state `insertFoodTx` reaches after the `foods` insert). -/
def tx3State (db : DB) (food : Food) (sourceId imageId : Nat) : DB :=
  { foodSources := insertOrIgnoreDesc db.foodSources food.source
    foodImages := insertOrIgnoreDesc db.foodImages food.image_url
    foods := db.foods ++ [insertedRow db food sourceId imageId]
    tags := db.tags
    allergens := db.allergens
    servingDescriptions := db.servingDescriptions
    foodTags := db.foodTags
    foodAllergens := db.foodAllergens
    foodServings := db.foodServings }

/-- A verified seed food with one tag, used by several witnesses. -/
def foodMuz : Food :=
  { description := "Muz".toList
    verified := some true
    tags := ["Meyve".toList]
    image_url := "/muz.jpg".toList
    source := "W".toList
    servings := [("Porsiyon".toList, 100)] }

/-- The store after seeding `foodMuz` into an empty store. -/
def dbMuz : DB := (insertFood {} foodMuz).1

/-- The food returned by `GET /food/muz` against `dbMuz`. -/
def fMuzHandler : Food :=
  match foodHandler ({} : Config) dbMuz "muz".toList with
  | .ok f => f
  | .error _ => {}

/-- Tag-mode search parameters matching `foodMuz`'s tag. -/
def searchTagParams : SearchParams :=
  { q := "mey".toList, mode := some "tag".toList, limit := none }

/-- The response body of that tag-mode search against `dbMuz`. -/
def fsMuz : List Food :=
  fixImageUrls {}
    (((searchFoodsByTagWild dbMuz "mey".toList).filter
      (fun food => food.verified.getD false)).take 5)

/-- The single food of `fsMuz`. -/
def fMuzSearch : Food := fsMuz.headD {}

/-- All rows `insert_food` promises for one food: the `foods` row with the
derived slug and defaulted `verified`, the resolved source and image rows,
and one link row per tag, allergen and serving. -/
def FoodFullyInserted (db : DB) (food : Food) : Prop :=
  ∃ row, row ∈ db.foods ∧
    row.slug = toLowerEnKebabCase food.description ∧
    row.description = food.description ∧
    row.verified = some (food.verified.getD true) ∧
    (∃ src ∈ db.foodSources, src.1 = row.sourceId ∧ src.2 = food.source) ∧
    (∃ img ∈ db.foodImages, img.1 = row.imageId ∧ img.2 = food.image_url) ∧
    (∀ tag ∈ food.tags, ∃ t ∈ db.tags, t.2 = lowerStr tag ∧
      (row.id, t.1) ∈ db.foodTags) ∧
    (∀ al ∈ food.allergens, ∃ a ∈ db.allergens, a.2 = lowerStr al ∧
      (row.id, a.1) ∈ db.foodAllergens) ∧
    (∀ sv ∈ food.servings, ∃ sd ∈ db.servingDescriptions, sd.2 = sv.1 ∧
      ∃ w, (row.id, sd.1, w) ∈ db.foodServings)

/-- A food is blocked in a store when its description or its derived slug is
already taken — exactly the situations in which `insert_food` changes
nothing. -/
def Blocked (db : DB) (food : Food) : Prop :=
  food.description ∈ db.foods.map (fun r => r.description) ∨
  toLowerEnKebabCase food.description ∈ db.foods.map (fun r => r.slug)

/-- A store holding one row whose `verified` column is NULL, as an
out-of-band edit would leave it. -/
def dbNull : DB :=
  { foods := [{ id := 1, slug := "armut".toList, description := "Armut".toList, verified := none, imageId := 1, sourceId := 1 }]
    foodSources := [(1, "W".toList)]
    foodImages := [(1, "/a.jpg".toList)] }

/-- The hydrated food `select_food_by_slug` returns for that row. -/
def fNull : Food :=
  match selectFoodBySlug dbNull "armut".toList with
  | .ok f => f
  | .error _ => {}

/-- A food whose `verified` field is absent in the seed JSON. -/
def foodArmut : Food :=
  { description := "Armut".toList, verified := none, source := "W".toList }


/-- The function `findSub` returns exactly the first index at which the needle starts. -/
theorem findSub_eq_specFirstOccurrence (hay needle : List Char) :
    findSub hay needle = specFirstOccurrence hay needle := by
  induction hay with
  | nil =>
    by_cases h : needle.isPrefixOf ([] : List Char)
    · simp [findSub, specFirstOccurrence, List.find?, h]
    · simp [findSub, specFirstOccurrence, List.find?, h]
  | cons c t ih =>
    by_cases h : needle.isPrefixOf (c :: t)
    · rw [findSub, if_pos h]
      simp only [specFirstOccurrence, List.length_cons, List.range_succ_eq_map]
      rw [List.find?_cons_of_pos _ (by simpa using h)]
    · rw [findSub, if_neg (by simpa using h), ih]
      have hrhs : specFirstOccurrence (c :: t) needle =
          ((List.range (t.length + 1)).find?
            ((fun i => needle.isPrefixOf (List.drop i (c :: t))) ∘ Nat.succ)).map
            Nat.succ := by
        simp only [specFirstOccurrence, List.length_cons, List.range_succ_eq_map]
        rw [List.find?_cons_of_neg _ (by simpa using h), List.find?_map]
      rw [hrhs]
      have harg : ((fun i => needle.isPrefixOf (List.drop i (c :: t))) ∘ Nat.succ) =
          (fun i => needle.isPrefixOf (List.drop i t)) := by
        funext i
        simp [Nat.succ_eq_add_one]
      rw [harg, specFirstOccurrence]

/-- A found position never exceeds the haystack length. -/
theorem findSub_le_length (hay needle : List Char) (p : Nat)
    (h : findSub hay needle = some p) : p ≤ hay.length := by
  rw [findSub_eq_specFirstOccurrence] at h
  have hmem := List.mem_of_find?_eq_some h
  exact Nat.lt_succ_iff.mp (List.mem_range.mp hmem)

/-! ## Claim C2: the ranker's score matches the spec formula -/

/-- C2: for every query `q` and every food, the relevance score computed by
`sort_foods_by_query` equals the spec's formula over the Unicode-lowercased
description: 20 if the lowercased description starts with lowercased `q`;
otherwise `floor(10 * (L - p) / max(L, 1))` — the floor taken over ℤ — with
`p` the 0-indexed position of the first occurrence of `q` and `L` the
description length, if `q` occurs; otherwise 0. -/
theorem claim_c2_score_matches_spec (query : List Char) (food : Food) :
    sortFoodsScore (lowerStr query) food = specRelevanceScore query food.description := by
  simp only [sortFoodsScore, specRelevanceScore]
  by_cases h : (lowerStr query).isPrefixOf (lowerStr food.description)
  · rw [if_pos h, if_pos h]
  · rw [if_neg h, if_neg h, findSub_eq_specFirstOccurrence]
    cases hf : specFirstOccurrence (lowerStr food.description) (lowerStr query) with
    | none => rfl
    | some p =>
      dsimp only
      have hp : p ≤ (lowerStr food.description).length := by
        have hle := findSub_le_length (lowerStr food.description) (lowerStr query) p
        exact hle (by rw [findSub_eq_specFirstOccurrence]; exact hf)
      set L := (lowerStr food.description).length with hL
      have h1 : ((L : Int) - (p : Int)) = ((L - p : Nat) : Int) := by
        push_cast [hp]; ring
      have h2 : (max (L : Int) 1) = ((max L 1 : Nat) : Int) := by
        push_cast; rfl
      rw [h1, h2]
      rw [show (10 : Int) * ((L - p : Nat) : Int) = ((10 * (L - p) : Nat) : Int) by
        push_cast; ring]
      rw [← Int.ofNat_ediv, Int.toNat_natCast]

/-! ## Claims C9 and C3: permutation and (un)stability of the ranker -/

theorem filterMap_some_comp_eq_map {α β : Type} (g : α → β) (l : List α) :
    l.filterMap (fun a => some (g a)) = l.map g := by
  induction l with
  | nil => rfl
  | cons a l ih => simp [List.filterMap_cons, ih]

theorem scoredFoods_map_food (queryLower : List Char) (foods : List Food) :
    (scoredFoods queryLower foods).map (fun t => t.2.1) = foods := by
  rw [scoredFoods, filterMap_some_comp_eq_map, List.map_map]
  have hcomp : ((fun t : Nat × Food × Nat => t.2.1) ∘
      (fun p : Nat × Food => (p.1, p.2, sortFoodsScore queryLower p.2))) = Prod.snd := by
    funext p
    rfl
  rw [hcomp]
  exact List.enum_map_snd foods

/-- C9: for every query and input list, anything `sort_foods_by_query` can
leave in `foods` is a permutation of the input — the `filter_map` keeps every
element and the sort only reorders. -/
theorem claim_c9_ranker_permutes (query : List Char) (foods result : List Food)
    (h : sortFoodsByQuery query foods result) : result.Perm foods := by
  obtain ⟨scoredSorted, hperm, _, rfl⟩ := h
  have hmap := hperm.map (fun t : Nat × Food × Nat => t.2.1)
  rw [scoredFoods_map_food] at hmap
  exact hmap.symm

theorem claim_c9_ranker_permutes_witness :
    sortFoodsByQuery ['k', 'a'] [foodKarpuz, foodElma] [foodKarpuz, foodElma] ∧
    ([foodKarpuz, foodElma] : List Food).Perm [foodKarpuz, foodElma] := by
  have hrel : sortFoodsByQuery ['k', 'a'] [foodKarpuz, foodElma] [foodKarpuz, foodElma] := by
    refine ⟨scoredFoods (lowerStr ['k', 'a']) [foodKarpuz, foodElma], .refl _, ?_, ?_⟩
    · show sortedByScoreDesc [(0, foodKarpuz, 20), (1, foodElma, 0)]
      simp [sortedByScoreDesc]
    · rfl
  exact ⟨hrel, claim_c9_ranker_permutes _ _ _ hrel⟩

/-- C3: the sort step of `sort_foods_by_query` is `slice::sort_unstable_by`,
whose contract permits reordering equal elements, so the handler may emit
two foods of equal score in either order: with query `"xyz"` both foods
score 0 and the reversed output satisfies the sort contract, contradicting
"ties preserve input order" (which the spec §4.3 and the repository's own
`test_sort_by_query_stable_sort` demand). -/
theorem claim_c3_unstable_sort_tie :
    sortFoodsByQuery ['x', 'y', 'z'] [foodKarpuz, foodElma] [foodElma, foodKarpuz] ∧
    ([foodElma, foodKarpuz] : List Food) ≠ [foodKarpuz, foodElma] := by
  constructor
  · refine ⟨[(1, foodElma, 0), (0, foodKarpuz, 0)], ?_, ?_, rfl⟩
    · have hs : scoredFoods (lowerStr ['x', 'y', 'z']) [foodKarpuz, foodElma] =
          [(0, foodKarpuz, 0), (1, foodElma, 0)] := by decide
      rw [hs]
      exact List.Perm.swap _ _ _
    · simp [sortedByScoreDesc]
  · decide

/-! ## Claim C8: the sanitizer's rejection condition -/

/-- C8: `sanitize_input` rejects `s` — with a status-400 error — exactly when
`s` is empty after trimming whitespace or contains one of the substrings
`..`, `/`, `\`, NUL, `;`, `*`, `--`, `/*`, `*/`, `'`, `"`; substring
occurrence is stated with `List.IsInfix`, independently of the Boolean
`contains` model. -/
theorem claim_c8_sanitizer_condition (s : List Char) :
    ((∃ e, sanitizeInput s = .error e) ↔
      (trimChars s = [] ∨ ['.', '.'] <:+: s ∨ ['/'] <:+: s ∨ ['\\'] <:+: s ∨
        ['\x00'] <:+: s ∨ [';'] <:+: s ∨ ['*'] <:+: s ∨ ['-', '-'] <:+: s ∨
        ['/', '*'] <:+: s ∨ ['*', '/'] <:+: s ∨ ['\''] <:+: s ∨ ['\"'] <:+: s)) ∧
    (∀ e, sanitizeInput s = .error e → e.status = 400) := by
  by_cases h : (containsSub s ['.', '.']
      || containsSub s ['/']
      || containsSub s ['\\']
      || containsSub s ['\x00']
      || containsSub s [';']
      || containsSub s ['*']
      || containsSub s ['-', '-']
      || containsSub s ['/', '*']
      || containsSub s ['*', '/']
      || containsSub s ['\'']
      || containsSub s ['\"']
      || containsSub s ['\\']
      || (trimChars s).isEmpty) = true
  · constructor
    · constructor
      · intro _
        simp only [containsSub, Bool.or_eq_true, decide_eq_true_eq,
          List.isEmpty_iff] at h
        tauto
      · intro _
        exact ⟨APIError.new 400 "Sorgu geçersiz karakterler içeriyor".toList,
          by rw [sanitizeInput, if_pos h]⟩
    · intro e he
      rw [sanitizeInput, if_pos h] at he
      injection he with h2
      rw [← h2]
      rfl
  · constructor
    · constructor
      · rintro ⟨e, he⟩
        rw [sanitizeInput, if_neg h] at he
        exact absurd he (by simp)
      · intro hr
        exfalso
        apply h
        simp only [containsSub, Bool.or_eq_true, decide_eq_true_eq,
          List.isEmpty_iff]
        tauto
    · intro e he
      rw [sanitizeInput, if_neg h] at he
      exact absurd he (by simp)

theorem claim_c8_sanitizer_condition_witness :
    (∃ e, sanitizeInput ['a', '*', 'b'] = .error e) ∧
    (APIError.new 400 "Sorgu geçersiz karakterler içeriyor".toList).status = 400 := by
  have h := claim_c8_sanitizer_condition ['a', '*', 'b']
  refine ⟨h.1.mpr (by decide), h.2 _ (by rfl)⟩

/-! ## Claim C6: which X-Forwarded-For entry the code uses -/

theorem splitComma_no_comma {s : List Char} (h : ',' ∉ s) : splitComma s = [s] := by
  induction s with
  | nil => rfl
  | cons c t ih =>
    have hc : ¬c = ',' := fun hc => h (by simp [hc])
    have ht : ',' ∉ t := fun m => h (List.mem_cons_of_mem _ m)
    rw [splitComma]
    simp only [if_neg hc, ih ht]
    rfl

theorem splitComma_append (s t : List Char) (h : ',' ∉ s) :
    splitComma (s ++ ',' :: t) = s :: splitComma t := by
  induction s with
  | nil => simp [splitComma]
  | cons c s ih =>
    have hc : ¬c = ',' := fun hc => h (by simp [hc])
    have hs : ',' ∉ s := fun m => h (List.mem_cons_of_mem _ m)
    rw [List.cons_append, splitComma]
    simp only [if_neg hc, ih hs]
    rfl

/-- C6, counterexample to the claim as stated: with
`X-Forwarded-For: 1.1.1.1, 2.2.2.2` the code yields `1.1.1.1` — the
*leftmost* entry — not the rightmost value `2.2.2.2` the claim (and spec
§4.7) names.  (The rate-limit layer in `main.rs` separately configures
rightmost-entry extraction, but that is library behavior, not
`parse_client_ip`.) -/
theorem claim_c6_counterexample :
    parseClientIp "9.9.9.9".toList (some "1.1.1.1, 2.2.2.2".toList) = "1.1.1.1".toList ∧
    "1.1.1.1".toList ≠ "2.2.2.2".toList := by
  constructor
  · decide
  · decide

/-- C6, amended: `parse_client_ip` yields the *leftmost* comma-separated
`X-Forwarded-For` entry, trimmed, when the header is present (also when it
is the only entry), and the string `"proxy: "` followed by the transport
peer address otherwise. -/
theorem claim_c6_client_ip_leftmost :
    ∀ (ip leftPart rest : List Char), ',' ∉ leftPart →
    (parseClientIp ip (some (leftPart ++ ',' :: rest)) = trimChars leftPart ∧
     parseClientIp ip (some leftPart) = trimChars leftPart ∧
     parseClientIp ip none = "proxy: ".toList ++ ip) := by
  intro ip leftPart rest h
  refine ⟨?_, ?_, rfl⟩
  · rw [parseClientIp, splitComma_append _ _ h]
    rfl
  · rw [parseClientIp, splitComma_no_comma h]
    rfl

theorem claim_c6_client_ip_leftmost_witness :
    parseClientIp "9.9.9.9".toList (some ("1.1.1.1".toList ++ ',' :: " 2.2.2.2".toList)) =
      trimChars "1.1.1.1".toList ∧
    parseClientIp "9.9.9.9".toList (some "1.1.1.1".toList) = trimChars "1.1.1.1".toList ∧
    parseClientIp "9.9.9.9".toList none = "proxy: ".toList ++ "9.9.9.9".toList :=
  claim_c6_client_ip_leftmost "9.9.9.9".toList "1.1.1.1".toList " 2.2.2.2".toList (by decide)

/-! ## Claim C7: the 96-byte search-parameter gate -/

theorem sanitizeInput_error_msg {s : List Char} {e : APIError}
    (he : sanitizeInput s = .error e) :
    e = APIError.new 400 "Sorgu geçersiz karakterler içeriyor".toList := by
  rw [sanitizeInput] at he
  split at he
  · injection he with h2
    exact h2.symm
  · exact absurd he (by simp)

/-- C7: a `GET /foods/search` request is answered with the 400 size error
exactly when the serialized size of its parameter set exceeds 96 bytes (so
size 96 passes the gate, size 97 is rejected — see the witness). -/
theorem claim_c7_size_gate (cfg : Config) (db : DB) (p : SearchParams)
    (r : Except APIError (List Food)) (h : foodsSearch cfg db p r) :
    96 < p.size ↔ r = .error searchSizeError := by
  by_cases hs : 96 < p.size
  · rw [foodsSearch, if_pos hs] at h
    exact ⟨fun _ => h, fun _ => hs⟩
  · rw [foodsSearch, if_neg hs] at h
    constructor
    · intro c
      exact absurd c hs
    · intro hr
      subst hr
      dsimp only at h
      exfalso
      split at h
      · exact absurd h (by decide)
      · split at h
        next e heq =>
          rw [sanitizeInput_error_msg heq] at h
          exact absurd h (by decide)
        next heq =>
          cases hm : p.mode with
          | none =>
            rw [hm] at h
            dsimp only at h
            rw [if_pos (Or.inl rfl)] at h
            obtain ⟨sorted, _, hbad⟩ := h
            exact absurd hbad (by simp)
          | some value =>
            rw [hm] at h
            dsimp only at h
            by_cases hd : lowerStr value = "description".toList ∨
              lowerStr value = "name".toList
            · rw [if_pos hd] at h
              obtain ⟨sorted, _, hbad⟩ := h
              exact absurd hbad (by simp)
            · rw [if_neg hd] at h
              by_cases ht : lowerStr value = "tag".toList
              · rw [if_pos ht] at h
                exact absurd h (by simp)
              · rw [if_neg ht] at h
                exact absurd h (by decide)

theorem claim_c7_size_gate_witness :
    (96 < searchParams97.size ↔
      (Except.error searchSizeError : Except APIError (List Food)) = .error searchSizeError) ∧
    (96 < searchParams96.size ↔
      (Except.ok ([] : List Food) : Except APIError (List Food)) = .error searchSizeError) := by
  constructor
  · exact claim_c7_size_gate ({} : Config) ({} : DB) searchParams97 _
      (by rw [foodsSearch, if_pos (by decide)])
  · refine claim_c7_size_gate ({} : Config) ({} : DB) searchParams96 _ ?_
    rw [foodsSearch, if_neg (by decide)]
    dsimp only
    rw [if_neg (by decide)]
    simp only [searchParams96]
    rw [show sanitizeInput (List.replicate 32 'a') = .ok () from rfl]
    dsimp only
    simp only [true_or, if_true]
    exact ⟨[], ⟨[], .refl _, by simp [sortedByScoreDesc], rfl⟩, rfl⟩

/-! ## Claims C4, C5, C10: transaction analysis of `insert_food`

`LinkExt db db'` relates a transaction state to a later state of the same
transaction after some link-loop iterations: the scalar tables are
untouched, the description and link tables only grow. -/

theorem linkExt_refl (db : DB) : LinkExt db db :=
  ⟨rfl, rfl, rfl, fun _ h => h, fun _ h => h, fun _ h => h, fun _ h => h,
    fun _ h => h, fun _ h => h⟩

theorem linkExt_trans {a b c : DB} (h1 : LinkExt a b) (h2 : LinkExt b c) :
    LinkExt a c := by
  obtain ⟨e1, e2, e3, s4, s5, s6, s7, s8, s9⟩ := h1
  obtain ⟨f1, f2, f3, t4, t5, t6, t7, t8, t9⟩ := h2
  exact ⟨f1.trans e1, f2.trans e2, f3.trans e3,
    fun x hx => t4 x (s4 x hx), fun x hx => t5 x (s5 x hx),
    fun x hx => t6 x (s6 x hx), fun x hx => t7 x (s7 x hx),
    fun x hx => t8 x (s8 x hx), fun x hx => t9 x (s9 x hx)⟩

theorem insertOrIgnoreDesc_subset (tbl : List (Nat × List Char)) (d : List Char) :
    ∀ x ∈ tbl, x ∈ insertOrIgnoreDesc tbl d := by
  intro x hx
  rw [insertOrIgnoreDesc]
  split
  · exact hx
  · exact List.mem_append_left _ hx

/-- After `INSERT OR IGNORE`, the `SELECT id … LIMIT 1` that `insert_food`
issues always finds a row holding the inserted description. -/
theorem insertOrIgnoreDesc_fetch (tbl : List (Nat × List Char)) (d : List Char) :
    ∃ id, fetchIdByDesc (insertOrIgnoreDesc tbl d) d = some id ∧
      (id, d) ∈ insertOrIgnoreDesc tbl d := by
  have hex : ∃ x ∈ insertOrIgnoreDesc tbl d,
      (fun r : Nat × List Char => r.2 == d) x = true := by
    rw [insertOrIgnoreDesc]
    split
    next hany =>
      obtain ⟨x, hx, hbeq⟩ := List.any_eq_true.mp hany
      exact ⟨x, hx, hbeq⟩
    next hany =>
      exact ⟨(tbl.length + 1, d), List.mem_append_right _ (List.mem_singleton_self _),
        by simp⟩
  have hsome : ((insertOrIgnoreDesc tbl d).find? (fun r => r.2 == d)).isSome := by
    rw [List.find?_isSome]
    exact hex
  cases hfind : (insertOrIgnoreDesc tbl d).find? (fun r => r.2 == d) with
  | none => rw [hfind] at hsome; simp at hsome
  | some r =>
    have hr2 : r.2 = d := by simpa using List.find?_some hfind
    have hrmem := List.mem_of_find?_eq_some hfind
    refine ⟨r.1, ?_, ?_⟩
    · rw [fetchIdByDesc, hfind]
      rfl
    · have hpair : (r.1, d) = r := by
        obtain ⟨a, b⟩ := r
        cases hr2
        rfl
      rw [hpair]
      exact hrmem

theorem insertOrIgnorePair_subset (tbl : List (Nat × Nat)) (p : Nat × Nat) :
    ∀ x ∈ tbl, x ∈ insertOrIgnorePair tbl p := by
  intro x hx
  rw [insertOrIgnorePair]
  split
  · exact hx
  · exact List.mem_append_left _ hx

theorem insertOrIgnorePair_mem (tbl : List (Nat × Nat)) (p : Nat × Nat) :
    p ∈ insertOrIgnorePair tbl p := by
  rw [insertOrIgnorePair]
  split
  next hany =>
    obtain ⟨x, hx, hbeq⟩ := List.any_eq_true.mp hany
    rw [← show x = p by simpa using hbeq]
    exact hx
  next => exact List.mem_append_right _ (List.mem_singleton_self _)

theorem insertOrIgnoreServing_subset (tbl : List (Nat × Nat × Rat)) (fid sdId : Nat)
    (w : Rat) : ∀ x ∈ tbl, x ∈ insertOrIgnoreServing tbl fid sdId w := by
  intro x hx
  rw [insertOrIgnoreServing]
  split
  · exact hx
  · exact List.mem_append_left _ hx

theorem insertOrIgnoreServing_mem (tbl : List (Nat × Nat × Rat)) (fid sdId : Nat)
    (w : Rat) : ∃ w', (fid, sdId, w') ∈ insertOrIgnoreServing tbl fid sdId w := by
  rw [insertOrIgnoreServing]
  split
  next hany =>
    obtain ⟨x, hx, hbeq⟩ := List.any_eq_true.mp hany
    obtain ⟨a, b, c⟩ := x
    simp only [Bool.and_eq_true, beq_iff_eq] at hbeq
    refine ⟨c, ?_⟩
    rw [show (fid, sdId, c) = (a, b, c) by rw [hbeq.1, hbeq.2]]
    exact hx
  next => exact ⟨w, List.mem_append_right _ (List.mem_singleton_self _)⟩

/-- One tag-loop iteration always succeeds and only grows the tag tables. -/
theorem tagStep_ok (fid : Nat) (db : DB) (tag : List Char) :
    ∃ db', tagStep fid db tag = .ok db' ∧ LinkExt db db' ∧
      ∃ tid, (tid, lowerStr tag) ∈ db'.tags ∧ (fid, tid) ∈ db'.foodTags := by
  obtain ⟨tid, hfetch, hmem⟩ := insertOrIgnoreDesc_fetch db.tags (lowerStr tag)
  refine ⟨{ db with tags := insertOrIgnoreDesc db.tags (lowerStr tag), foodTags := insertOrIgnorePair db.foodTags (fid, tid) }, ?_, ?_, tid, hmem, insertOrIgnorePair_mem _ _⟩
  · rw [tagStep]
    dsimp only
    rw [hfetch]
    rfl
  · exact ⟨rfl, rfl, rfl, insertOrIgnoreDesc_subset _ _, fun _ h => h, fun _ h => h,
      insertOrIgnorePair_subset _ _, fun _ h => h, fun _ h => h⟩

theorem allergenStep_ok (fid : Nat) (db : DB) (allergen : List Char) :
    ∃ db', allergenStep fid db allergen = .ok db' ∧ LinkExt db db' ∧
      ∃ aid, (aid, lowerStr allergen) ∈ db'.allergens ∧
        (fid, aid) ∈ db'.foodAllergens := by
  obtain ⟨aid, hfetch, hmem⟩ := insertOrIgnoreDesc_fetch db.allergens (lowerStr allergen)
  refine ⟨{ db with allergens := insertOrIgnoreDesc db.allergens (lowerStr allergen), foodAllergens := insertOrIgnorePair db.foodAllergens (fid, aid) }, ?_, ?_, aid, hmem, insertOrIgnorePair_mem _ _⟩
  · rw [allergenStep]
    dsimp only
    rw [hfetch]
    rfl
  · exact ⟨rfl, rfl, rfl, fun _ h => h, insertOrIgnoreDesc_subset _ _, fun _ h => h,
      fun _ h => h, insertOrIgnorePair_subset _ _, fun _ h => h⟩

theorem servingStep_ok (fid : Nat) (db : DB) (serving : List Char × Rat) :
    ∃ db', servingStep fid db serving = .ok db' ∧ LinkExt db db' ∧
      ∃ sid w, (sid, serving.1) ∈ db'.servingDescriptions ∧
        (fid, sid, w) ∈ db'.foodServings := by
  obtain ⟨sid, hfetch, hmem⟩ := insertOrIgnoreDesc_fetch db.servingDescriptions serving.1
  obtain ⟨w, hw⟩ := insertOrIgnoreServing_mem db.foodServings fid sid serving.2
  refine ⟨{ db with servingDescriptions := insertOrIgnoreDesc db.servingDescriptions serving.1, foodServings := insertOrIgnoreServing db.foodServings fid sid serving.2 }, ?_, ?_, sid, w, hmem, hw⟩
  · rw [servingStep]
    dsimp only
    rw [hfetch]
    rfl
  · exact ⟨rfl, rfl, rfl, fun _ h => h, fun _ h => h, insertOrIgnoreDesc_subset _ _,
      fun _ h => h, fun _ h => h, insertOrIgnoreServing_subset _ _ _ _⟩

/-- Generic run of one link loop of `insert_food`: it never fails, extends
the state, and establishes its per-element property for every element. -/
theorem foldlM_linkExt {α : Type} (step : DB → α → Except DBErr DB) (P : α → DB → Prop)
    (hstep : ∀ db x, ∃ db', step db x = .ok db' ∧ LinkExt db db' ∧ P x db')
    (hmono : ∀ x db db', P x db → LinkExt db db' → P x db') :
    ∀ (xs : List α) (db : DB), ∃ db', xs.foldlM step db = .ok db' ∧ LinkExt db db' ∧
      ∀ x ∈ xs, P x db' := by
  intro xs
  induction xs with
  | nil =>
    intro db
    exact ⟨db, rfl, linkExt_refl db, by simp⟩
  | cons x xs ih =>
    intro db
    obtain ⟨db1, h1, hext1, hp1⟩ := hstep db x
    obtain ⟨db2, h2, hext2, hp2⟩ := ih db1
    refine ⟨db2, ?_, linkExt_trans hext1 hext2, ?_⟩
    · rw [List.foldlM_cons, h1]
      exact h2
    · intro y hy
      rcases List.mem_cons.mp hy with hxy | hmem
      · rw [hxy]
        exact hmono x db1 db2 hp1 hext2
      · exact hp2 y hmem

/-- The three link loops of `insert_food` run to completion from any
transaction state, leaving every tag, allergen and serving of the food
linked to `foodId`. -/
theorem loopsRun (foodId : Nat) (food : Food) : ∀ db3 : DB,
    ∃ dbz, (match food.tags.foldlM (tagStep foodId) db3 with
      | .error e => (.error e : Except DBErr (DB × Nat))
      | .ok db =>
        match food.allergens.foldlM (allergenStep foodId) db with
        | .error e => .error e
        | .ok db =>
          match food.servings.foldlM (servingStep foodId) db with
          | .error e => .error e
          | .ok db => .ok (db, foodId)) = .ok (dbz, foodId) ∧
      LinkExt db3 dbz ∧
      (∀ tag ∈ food.tags, ∃ tid, (tid, lowerStr tag) ∈ dbz.tags ∧
        (foodId, tid) ∈ dbz.foodTags) ∧
      (∀ al ∈ food.allergens, ∃ aid, (aid, lowerStr al) ∈ dbz.allergens ∧
        (foodId, aid) ∈ dbz.foodAllergens) ∧
      (∀ sv ∈ food.servings, ∃ sid w, (sid, sv.1) ∈ dbz.servingDescriptions ∧
        (foodId, sid, w) ∈ dbz.foodServings) := by
  intro db3
  obtain ⟨db4, hfold4, hext4, hp4⟩ := foldlM_linkExt (tagStep foodId)
    (fun tag dbx => ∃ tid, (tid, lowerStr tag) ∈ dbx.tags ∧ (foodId, tid) ∈ dbx.foodTags)
    (tagStep_ok foodId)
    (by
      rintro tag dbx dbx' ⟨tid, h1, h2⟩ ⟨_, _, _, ht, _, _, hft, _, _⟩
      exact ⟨tid, ht _ h1, hft _ h2⟩)
    food.tags db3
  obtain ⟨db5, hfold5, hext5, hp5⟩ := foldlM_linkExt (allergenStep foodId)
    (fun al dbx => ∃ aid, (aid, lowerStr al) ∈ dbx.allergens ∧
      (foodId, aid) ∈ dbx.foodAllergens)
    (allergenStep_ok foodId)
    (by
      rintro al dbx dbx' ⟨aid, h1, h2⟩ ⟨_, _, _, _, ha, _, _, hfa, _⟩
      exact ⟨aid, ha _ h1, hfa _ h2⟩)
    food.allergens db4
  obtain ⟨db6, hfold6, hext6, hp6⟩ := foldlM_linkExt (servingStep foodId)
    (fun sv dbx => ∃ sid w, (sid, sv.1) ∈ dbx.servingDescriptions ∧
      (foodId, sid, w) ∈ dbx.foodServings)
    (servingStep_ok foodId)
    (by
      rintro sv dbx dbx' ⟨sid, w, h1, h2⟩ ⟨_, _, _, _, _, hsd, _, _, hfs⟩
      exact ⟨sid, w, hsd _ h1, hfs _ h2⟩)
    food.servings db5
  refine ⟨db6, ?_, linkExt_trans hext4 (linkExt_trans hext5 hext6), ?_, ?_, hp6⟩
  · rw [hfold4]
    dsimp only
    rw [hfold5]
    dsimp only
    rw [hfold6]
  · intro tag htag
    obtain ⟨tid, h1, h2⟩ := hp4 tag htag
    obtain ⟨_, _, _, t4, _, _, t7, _, _⟩ := linkExt_trans hext5 hext6
    exact ⟨tid, t4 _ h1, t7 _ h2⟩
  · intro al hal
    obtain ⟨aid, h1, h2⟩ := hp5 al hal
    obtain ⟨_, _, _, _, t5, _, _, t8, _⟩ := hext6
    exact ⟨aid, t5 _ h1, t8 _ h2⟩

/-- Success analysis of the transaction body: when the `foods` insert is not
blocked by the UNIQUE constraints, `insertFoodTx` succeeds and the final
state holds the new row and every link. -/
theorem insertFoodTx_ok (db : DB) (food : Food)
    (hconf : (db.foods.any (fun r =>
      r.slug == toLowerEnKebabCase food.description ||
      r.description == food.description)) = false) :
    ∃ db', insertFoodTx db food = .ok (db', db.foods.length + 1) ∧
      (∃ row, db'.foods = db.foods ++ [row] ∧ row.id = db.foods.length + 1 ∧
        row.slug = toLowerEnKebabCase food.description ∧
        row.description = food.description ∧
        row.verified = some (food.verified.getD true) ∧
        (row.sourceId, food.source) ∈ db'.foodSources ∧
        (row.imageId, food.image_url) ∈ db'.foodImages) ∧
      (∀ tag ∈ food.tags, ∃ tid, (tid, lowerStr tag) ∈ db'.tags ∧
        (db.foods.length + 1, tid) ∈ db'.foodTags) ∧
      (∀ al ∈ food.allergens, ∃ aid, (aid, lowerStr al) ∈ db'.allergens ∧
        (db.foods.length + 1, aid) ∈ db'.foodAllergens) ∧
      (∀ sv ∈ food.servings, ∃ sid w, (sid, sv.1) ∈ db'.servingDescriptions ∧
        (db.foods.length + 1, sid, w) ∈ db'.foodServings) := by
  obtain ⟨sid, hsfetch, hsmem⟩ := insertOrIgnoreDesc_fetch db.foodSources food.source
  obtain ⟨iid, hifetch, himem⟩ := insertOrIgnoreDesc_fetch db.foodImages food.image_url
  obtain ⟨db6, hrun, hext, hptags, hpals, hpsvs⟩ :=
    loopsRun (db.foods.length + 1) food (tx3State db food sid iid)
  obtain ⟨e1, e2, e3, _, _, _, _, _, _⟩ := hext
  refine ⟨db6, ?_, ?_, hptags, hpals, hpsvs⟩
  · rw [insertFoodTx]
    dsimp only
    rw [hsfetch]
    dsimp only
    rw [hifetch]
    dsimp only
    rw [if_neg (by simp [hconf])]
    exact hrun
  · refine ⟨insertedRow db food sid iid, ?_, rfl, rfl, rfl, rfl, ?_, ?_⟩
    · rw [e3]
      rfl
    · rw [e1]
      exact hsmem
    · rw [e2]
      exact himem

/-! ## Claim C1: public read paths only return verified foods -/

theorem fixImageUrl_verified (cfg : Config) (f : Food) :
    (fixImageUrl cfg f).verified = f.verified := by
  rw [fixImageUrl]
  split <;> rfl

theorem verified_getD_true {v : Option Bool} (h : v.getD false = true) : v = some true := by
  cases v with
  | none => simp at h
  | some b => simpa using h

theorem option_any_id_true {v : Option Bool} (h : v.any (fun b => b) = true) :
    v = some true := by
  cases v with
  | none => simp [Option.any] at h
  | some b =>
    simp [Option.any] at h
    rw [h]

/-- The `/food/{slug}` handler only answers 200 for a food whose stored
`verified` column is 1. -/
theorem foodHandler_ok_verified {cfg : Config} {db : DB} {slug : List Char} {f : Food}
    (h : foodHandler cfg db slug = .ok f) : f.verified = some true := by
  rw [foodHandler] at h
  split at h
  · exact absurd h (by simp)
  · split at h
    · exact absurd h (by simp)
    · split at h
      · exact absurd h (by simp)
      next food heq =>
        dsimp only at h
        split at h
        next hv =>
          injection h with h2
          rw [← h2]
          exact option_any_id_true hv
        next => exact absurd h (by simp)

theorem mem_searchPostFilter {cfg : Config} {l : List Food} {limit : Nat} {f : Food}
    (hf : f ∈ fixImageUrls cfg ((l.filter (fun food => food.verified.getD false)).take limit)) :
    f.verified = some true := by
  obtain ⟨g, hg, rfl⟩ := List.mem_map.mp hf
  have hg2 := List.mem_of_mem_take hg
  have hp := (List.mem_filter.mp hg2).2
  rw [fixImageUrl_verified]
  exact verified_getD_true (by simpa using hp)

/-- Every food in a 200 response of `/foods/search` is verified: the
`retain` runs after the sort and before truncation and the image rewrite,
in every mode. -/
theorem foodsSearch_ok_verified {cfg : Config} {db : DB} {p : SearchParams} {fs : List Food}
    (h : foodsSearch cfg db p (.ok fs)) : ∀ f ∈ fs, f.verified = some true := by
  intro f hf
  rw [foodsSearch] at h
  split at h
  · exact absurd h (by simp)
  · dsimp only at h
    split at h
    · exact absurd h (by simp)
    · split at h
      next e heq => exact absurd h (by simp)
      next heq =>
        cases hm : p.mode with
        | none =>
          rw [hm] at h
          dsimp only at h
          rw [if_pos (Or.inl rfl)] at h
          obtain ⟨sorted, _, heq2⟩ := h
          injection heq2 with h2
          subst h2
          exact mem_searchPostFilter hf
        | some value =>
          rw [hm] at h
          dsimp only at h
          by_cases hd : lowerStr value = "description".toList ∨
            lowerStr value = "name".toList
          · rw [if_pos hd] at h
            obtain ⟨sorted, _, heq2⟩ := h
            injection heq2 with h2
            subst h2
            exact mem_searchPostFilter hf
          · rw [if_neg hd] at h
            by_cases ht : lowerStr value = "tag".toList
            · rw [if_pos ht] at h
              injection h with h2
              subst h2
              exact mem_searchPostFilter hf
            · rw [if_neg ht] at h
              exact absurd h (by simp)

/-- C1: every food leaving a public read path is verified: a 200 from
`GET /food/{slug}` carries `verified = Some(true)`; every element of a 200
from `GET /foods/search` carries `verified = Some(true)`; and every slug
listed by `select_all_foods_slugs` (the `GET /foods/list` data source)
belongs to a row with `verified = 1`. -/
theorem claim_c1_public_reads_verified :
    (∀ (cfg : Config) (db : DB) (slug : List Char) (f : Food),
      foodHandler cfg db slug = .ok f → f.verified = some true) ∧
    (∀ (cfg : Config) (db : DB) (p : SearchParams) (fs : List Food),
      foodsSearch cfg db p (.ok fs) → ∀ f ∈ fs, f.verified = some true) ∧
    (∀ (db : DB) (s : List Char), s ∈ selectAllFoodsSlugs db →
      ∃ row ∈ db.foods, row.slug = s ∧ row.verified = some true) := by
  refine ⟨fun cfg db slug f h => foodHandler_ok_verified h,
    fun cfg db p fs h => foodsSearch_ok_verified h, ?_⟩
  intro db s hs
  rw [selectAllFoodsSlugs] at hs
  obtain ⟨row, hrow, rfl⟩ := List.mem_map.mp hs
  have hm := List.mem_filter.mp hrow
  exact ⟨row, hm.1, rfl, by simpa using hm.2⟩

theorem foodsSearch_dbMuz_rel : foodsSearch {} dbMuz searchTagParams (.ok fsMuz) := by
  rw [foodsSearch, if_neg (by decide)]
  dsimp only
  rw [if_neg (by decide)]
  simp only [searchTagParams]
  rw [show sanitizeInput "mey".toList = .ok () from rfl]
  dsimp only
  rw [if_neg (by decide), if_pos (by decide)]
  decide

theorem claim_c1_public_reads_verified_witness :
    fMuzHandler.verified = some true ∧ fMuzSearch.verified = some true ∧
    (∃ row ∈ dbMuz.foods, row.slug = "muz".toList ∧ row.verified = some true) := by
  refine ⟨claim_c1_public_reads_verified.1 {} dbMuz "muz".toList fMuzHandler (by decide),
    claim_c1_public_reads_verified.2.1 {} dbMuz searchTagParams fsMuz
      foodsSearch_dbMuz_rel fMuzSearch (by decide),
    claim_c1_public_reads_verified.2.2 dbMuz "muz".toList (by decide)⟩

/-! ## Claim C4: atomicity of `insert_food` -/

/-- When the `foods` UNIQUE constraints block the insert, the transaction
body fails with `RowNotFound` (no row comes back from `RETURNING ID`). -/
theorem insertFoodTx_conflict (db : DB) (food : Food)
    (hconf : (db.foods.any (fun r =>
      r.slug == toLowerEnKebabCase food.description ||
      r.description == food.description)) = true) :
    insertFoodTx db food = .error .rowNotFound := by
  obtain ⟨sid, hsfetch, _⟩ := insertOrIgnoreDesc_fetch db.foodSources food.source
  obtain ⟨iid, hifetch, _⟩ := insertOrIgnoreDesc_fetch db.foodImages food.image_url
  rw [insertFoodTx]
  dsimp only
  rw [hsfetch]
  dsimp only
  rw [hifetch]
  dsimp only
  rw [if_pos (by simp [hconf])]

/-- The only way the transaction body can fail is the `foods` insert being
blocked: every other statement in it succeeds from any state. -/
theorem insertFoodTx_err {db : DB} {food : Food} {e : DBErr}
    (h : insertFoodTx db food = .error e) :
    (db.foods.any (fun r =>
      r.slug == toLowerEnKebabCase food.description ||
      r.description == food.description)) = true := by
  cases hconf : (db.foods.any (fun r =>
      r.slug == toLowerEnKebabCase food.description ||
      r.description == food.description)) with
  | false =>
    obtain ⟨db', heq, _⟩ := insertFoodTx_ok db food hconf
    rw [heq] at h
    exact absurd h (by simp)
  | true => rfl

/-- A failed `insert_food` leaves the store exactly as it was (the guard
returns before the transaction, and a dropped transaction rolls back). -/
theorem insertFood_error_state (db : DB) (food : Food) :
    ∀ e, (insertFood db food).2 = .error e → (insertFood db food).1 = db := by
  intro e h
  rw [insertFood]
  by_cases hex : foodExistsByDescription db food.description
  · rw [if_pos hex]
  · rw [if_neg hex]
    cases htx : insertFoodTx db food with
    | error e' => rfl
    | ok pair =>
      rw [insertFood, if_neg hex, htx] at h
      exact absurd h (by simp)

/-- A successful `insert_food` appended exactly one `foods` row and left
every promised row present in the committed state. -/
theorem insertFood_ok_state (db : DB) (food : Food) :
    ∀ f', (insertFood db food).2 = .ok f' →
    ∃ row, (insertFood db food).1.foods = db.foods ++ [row] ∧
      row.description = food.description ∧
      row.verified = some (food.verified.getD true) ∧
      FoodFullyInserted (insertFood db food).1 food := by
  intro f' h
  by_cases hex : foodExistsByDescription db food.description
  · rw [insertFood, if_pos hex] at h
    exact absurd h (by simp)
  · cases hconf : (db.foods.any (fun r =>
        r.slug == toLowerEnKebabCase food.description ||
        r.description == food.description)) with
    | true =>
      rw [insertFood, if_neg hex, insertFoodTx_conflict db food hconf] at h
      exact absurd h (by simp)
    | false =>
      obtain ⟨db', heq, ⟨row, hfoods, hid, hslug, hdesc, hver, hsrc, himg⟩,
        htags, hals, hsvs⟩ := insertFoodTx_ok db food hconf
      have hstate : insertFood db food = (db', .ok { food with id := some (db.foods.length + 1) }) := by
        rw [insertFood, if_neg hex, heq]
      rw [hstate]
      refine ⟨row, hfoods, hdesc, hver, row, ?_, hslug, hdesc, hver, ?_, ?_, ?_, ?_, ?_⟩
      · rw [hfoods]
        exact List.mem_append_right _ (List.mem_singleton_self _)
      · exact ⟨(row.sourceId, food.source), hsrc, rfl, rfl⟩
      · exact ⟨(row.imageId, food.image_url), himg, rfl, rfl⟩
      · intro tag htag
        obtain ⟨tid, hmem, hlink⟩ := htags tag htag
        exact ⟨(tid, lowerStr tag), hmem, rfl, by rw [hid]; exact hlink⟩
      · intro al hal
        obtain ⟨aid, hmem, hlink⟩ := hals al hal
        exact ⟨(aid, lowerStr al), hmem, rfl, by rw [hid]; exact hlink⟩
      · intro sv hsv
        obtain ⟨sidv, w, hmem, hlink⟩ := hsvs sv hsv
        exact ⟨(sidv, sv.1), hmem, rfl, w, by rw [hid]; exact hlink⟩

/-- C4: `insert_food` is atomic — on any failure the store is unchanged (no
partial rows), and on success the food's row together with all of its tag
links, allergen links and serving links exists in the new store state. -/
theorem claim_c4_insert_atomic (db : DB) (food : Food) :
    (∀ e, (insertFood db food).2 = .error e → (insertFood db food).1 = db) ∧
    (∀ f', (insertFood db food).2 = .ok f' →
      FoodFullyInserted (insertFood db food).1 food) :=
  ⟨insertFood_error_state db food,
    fun f' h => ((insertFood_ok_state db food f' h).choose_spec).2.2.2⟩

theorem claim_c4_insert_atomic_witness :
    ((insertFood dbMuz foodMuz).1 = dbMuz) ∧
    FoodFullyInserted (insertFood {} foodMuz).1 foodMuz :=
  ⟨(claim_c4_insert_atomic dbMuz foodMuz).1 .alreadyExists (by decide),
    (claim_c4_insert_atomic {} foodMuz).2 { foodMuz with id := some 1 } (by decide)⟩

/-! ## Claim C5: seeding is idempotent -/

theorem conflict_iff_blocked (db : DB) (food : Food) :
    (db.foods.any (fun r =>
      r.slug == toLowerEnKebabCase food.description ||
      r.description == food.description)) = true ↔ Blocked db food := by
  rw [Blocked]
  simp only [List.any_eq_true, Bool.or_eq_true, beq_iff_eq, List.mem_map]
  constructor
  · rintro ⟨r, hr, h | h⟩
    · exact Or.inr ⟨r, hr, h⟩
    · exact Or.inl ⟨r, hr, h⟩
  · rintro (⟨r, hr, h⟩ | ⟨r, hr, h⟩)
    · exact ⟨r, hr, Or.inr h⟩
    · exact ⟨r, hr, Or.inl h⟩

theorem foodExists_iff (db : DB) (d : List Char) :
    foodExistsByDescription db d = true ↔ d ∈ db.foods.map (fun r => r.description) := by
  rw [foodExistsByDescription]
  simp only [List.any_eq_true, beq_iff_eq, List.mem_map]

/-- Running `insert_food` on a blocked food leaves the store unchanged: either the
pre-transaction duplicate-description guard fires, or the `foods` insert
inside the transaction is ignored, the `RETURNING ID` read fails, and the
transaction rolls back. -/
theorem blocked_insert_state (db : DB) (food : Food) (hb : Blocked db food) :
    (insertFood db food).1 = db := by
  rw [insertFood]
  by_cases hex : foodExistsByDescription db food.description
  · rw [if_pos hex]
  · rw [if_neg hex, insertFoodTx_conflict db food ((conflict_iff_blocked db food).mpr hb)]

/-- After `insert_food` processes a food — successfully or not — that food
is blocked in the resulting store. -/
theorem insert_blocked_after (db : DB) (food : Food) :
    Blocked (insertFood db food).1 food := by
  by_cases hex : foodExistsByDescription db food.description
  · rw [insertFood, if_pos hex]
    exact Or.inl ((foodExists_iff db _).mp hex)
  · cases hconf : (db.foods.any (fun r =>
        r.slug == toLowerEnKebabCase food.description ||
        r.description == food.description)) with
    | true =>
      rw [insertFood, if_neg hex, insertFoodTx_conflict db food hconf]
      exact (conflict_iff_blocked db food).mp hconf
    | false =>
      obtain ⟨db', heq, ⟨row, hfoods, _, _, hdesc, _, _, _⟩, _, _, _⟩ :=
        insertFoodTx_ok db food hconf
      rw [insertFood, if_neg hex, heq]
      refine Or.inl (List.mem_map.mpr ⟨row, ?_, hdesc⟩)
      rw [hfoods]
      exact List.mem_append_right _ (List.mem_singleton_self _)

/-- Calling `insert_food` never removes a `foods` row. -/
theorem insert_foods_mono (db : DB) (g : Food) :
    ∀ r ∈ db.foods, r ∈ (insertFood db g).1.foods := by
  intro r hr
  by_cases hex : foodExistsByDescription db g.description
  · rw [insertFood, if_pos hex]
    exact hr
  · cases hconf : (db.foods.any (fun row =>
        row.slug == toLowerEnKebabCase g.description ||
        row.description == g.description)) with
    | true =>
      rw [insertFood, if_neg hex, insertFoodTx_conflict db g hconf]
      exact hr
    | false =>
      obtain ⟨db', heq, ⟨row, hfoods, _⟩, _, _, _⟩ := insertFoodTx_ok db g hconf
      rw [insertFood, if_neg hex, heq]
      dsimp only
      rw [hfoods]
      exact List.mem_append_left _ hr

theorem blocked_mono (db : DB) (food g : Food) (hb : Blocked db food) :
    Blocked (insertFood db g).1 food := by
  rcases hb with h | h
  · obtain ⟨r, hr, heq⟩ := List.mem_map.mp h
    exact Or.inl (List.mem_map.mpr ⟨r, insert_foods_mono db g r hr, heq⟩)
  · obtain ⟨r, hr, heq⟩ := List.mem_map.mp h
    exact Or.inr (List.mem_map.mpr ⟨r, insert_foods_mono db g r hr, heq⟩)

theorem seed_blocked_mono (db : DB) (fs : List Food) (food : Food)
    (hb : Blocked db food) : Blocked (seedFoods db fs) food := by
  induction fs generalizing db with
  | nil => exact hb
  | cons g gs ih =>
    rw [seedFoods, List.foldl_cons]
    exact ih ((insertFood db g).1) (blocked_mono db food g hb)

theorem seed_all_blocked (fs : List Food) :
    ∀ db, ∀ f ∈ fs, Blocked (seedFoods db fs) f := by
  induction fs with
  | nil => simp
  | cons g gs ih =>
    intro db f hf
    rw [seedFoods, List.foldl_cons]
    rcases List.mem_cons.mp hf with hfg | hmem
    · rw [hfg]
      exact seed_blocked_mono ((insertFood db g).1) gs g (insert_blocked_after db g)
    · exact ih ((insertFood db g).1) f hmem

theorem seed_blocked_id (fs : List Food) :
    ∀ db, (∀ f ∈ fs, Blocked db f) → seedFoods db fs = db := by
  induction fs with
  | nil =>
    intro db _
    rfl
  | cons g gs ih =>
    intro db hall
    rw [seedFoods, List.foldl_cons, blocked_insert_state db g (hall g (by simp))]
    exact ih db (fun f hf => hall f (List.mem_cons_of_mem _ hf))

/-- C5: seeding is idempotent — running the seeding loop twice over the same
list of foods produces the same store state as running it once, because
every food is blocked after the first run and a blocked `insert_food`
changes nothing, and the seeder ignores the resulting errors. -/
theorem claim_c5_seeding_idempotent (db : DB) (fs : List Food) :
    seedFoods (seedFoods db fs) fs = seedFoods db fs :=
  seed_blocked_id fs (seedFoods db fs) (fun f hf => seed_all_blocked fs db f hf)

/-! ## Claim C10: absent `verified` is treated as unverified -/

/-- C10: a food whose `verified` flag is NULL is invisible to the public
read paths — `GET /food/{slug}` answers the 403 error for it, a search
response never contains it — while ingestion defaults a missing flag to
true, so the row it writes carries `Some(verified.unwrap_or(true))`. -/
theorem claim_c10_null_verified_hidden :
    (∀ (cfg : Config) (db : DB) (slug : List Char) (f : Food),
      ¬(slug.isEmpty ∨ 100 < utf8Len slug) → sanitizeInput slug = .ok () →
      selectFoodBySlug db slug = .ok f → f.verified = none →
      foodHandler cfg db slug =
        .error (APIError.new 403 "Bu yemek henüz onaylanmadığı için gösterilemiyor".toList)) ∧
    (∀ (cfg : Config) (db : DB) (p : SearchParams) (fs : List Food) (f : Food),
      foodsSearch cfg db p (.ok fs) → f.verified = none → f ∉ fs) ∧
    (∀ (db : DB) (food : Food) (f' : Food), (insertFood db food).2 = .ok f' →
      ∃ row ∈ (insertFood db food).1.foods, row.description = food.description ∧
        row.verified = some (food.verified.getD true)) := by
  refine ⟨?_, ?_, ?_⟩
  · intro cfg db slug f hb hsan hsel hv
    rw [foodHandler, if_neg hb, hsan]
    dsimp only
    rw [hsel]
    dsimp only
    rw [if_neg (by simp [fixImageUrl_verified, hv, Option.any])]
  · intro cfg db p fs f h hv hmem
    have hver := foodsSearch_ok_verified h f hmem
    rw [hv] at hver
    exact absurd hver (by simp)
  · intro db food f' h
    obtain ⟨row, hfoods, hdesc, hver, _⟩ := insertFood_ok_state db food f' h
    refine ⟨row, ?_, hdesc, hver⟩
    rw [hfoods]
    exact List.mem_append_right _ (List.mem_singleton_self _)

theorem claim_c10_null_verified_hidden_witness :
    (foodHandler {} dbNull "armut".toList =
      .error (APIError.new 403 "Bu yemek henüz onaylanmadığı için gösterilemiyor".toList)) ∧
    fNull ∉ fsMuz ∧
    (∃ row ∈ (insertFood {} foodArmut).1.foods, row.description = foodArmut.description ∧
      row.verified = some (foodArmut.verified.getD true)) :=
  ⟨claim_c10_null_verified_hidden.1 {} dbNull "armut".toList fNull (by decide) (by decide)
      (by decide) (by decide),
    claim_c10_null_verified_hidden.2.1 {} dbMuz searchTagParams fsMuz fNull
      foodsSearch_dbMuz_rel (by decide),
    claim_c10_null_verified_hidden.2.2 {} foodArmut { foodArmut with id := some 1 }
      (by decide)⟩

end BesinVeri
